import Mathlib

/-!
Verification of the tail-call-to-loop rewriter in `src/main.go`.

The Go program walks the AST of a parsed source file, finds functions whose
final statement returns a direct self-call, and rewrites them in place into
a loop.  We shallowly embed the relevant slice of `go/ast` and the program's
three components:

* `findTailRecursionReturn` (src/main.go lines 12-56), including the exact
  semantics of `ast.Inspect` (returning `false` from the visitor only prunes
  the children of the current node; traversal of siblings continues);
* `makeAssignStmts` (lines 59-98), with the two index accesses `args[i]` and
  `tmpNames[i]` modelled as fallible lookups (`none` = runtime panic);
* the per-function driver logic of `main` (lines 107-196) as `rewriteFn`.

Machine integers of the interpreted toy programs are modelled as `Int`
(the inputs of interest stay far below any overflow boundary, and the
rewriter itself never computes with them).
-/

/-- Binary-operator tokens (`go/token`) used by the rewriter and by the
interpreted programs. -/
inductive Tok where
  | eql | neq | lss | leq | gtr | geq
  | add | sub
  | define | assign
  deriving DecidableEq, Repr

/-- Expressions: the slice of `go/ast` expressions the program inspects.
`opaq` stands for any other expression kind, carried verbatim and never
interpreted (it has no traversable children in this embedding). -/
inductive Expr where
  | ident (name : String)
  | intLit (v : Int)
  | call (fn : Expr) (args : List Expr)
  | binary (x : Expr) (op : Tok) (y : Expr)
  | opaq (tag : Nat)

/-- Statements: the slice of `go/ast` statements the program inspects.
`ifS` is an `ast.IfStmt` (condition, then-block, else-block; `[]` models an
absent else).  `nilRet` models a nil `*ast.ReturnStmt` stored in a statement
slot of `fn.Body.List` (Go permits a typed nil pointer inside the interface
slice; the rewriter can produce one).  `opaq` is any other statement kind. -/
inductive Stmt where
  | ifS (cond : Expr) (thenB : List Stmt) (elseB : List Stmt)
  | ret (results : List Expr)
  | assign (lhs : List Expr) (tok : Tok) (rhs : List Expr)
  | forS (cond : Expr) (body : List Stmt)
  | nilRet
  | opaq (tag : Nat)

/-- One field of a parameter list (`*ast.Field`): possibly several names
sharing a type (the type itself is never inspected by the rewriter, so it
is dropped). -/
structure ParamField where
  names : List String
  deriving DecidableEq, Repr

/-- An `*ast.FuncDecl` with a non-nil body: name, parameter fields
(`fn.Type.Params.List`) and body statements (`fn.Body.List`). -/
structure FuncDecl where
  name : String
  params : List ParamField
  body : List Stmt

/-! ## Tail-call detector (src/main.go lines 12-56)

`ast.Inspect(fn.Body, f)` performs a preorder depth-first traversal.  When
`f` returns `false` it merely skips the children of the current node: the
traversal of the remaining siblings continues, so a later match overwrites
the memo variables `tailReturn`/`call`. -/

mutual
/-- The visitor of `findTailRecursionReturn` applied to one statement node
and, recursively, to its statement children, threading the memo. -/
def inspectStmt (fname : String) (m : Option (Stmt × Expr)) :
    Stmt → Option (Stmt × Expr)
  | .ret results =>
      match results with
      | [e] =>
          match e with
          | .call (.ident g) args =>
              if g = fname then some (.ret results, .call (.ident g) args)
              else m
          | _ => m
      | _ => m
  | .ifS _ thenB elseB => inspectList fname (inspectList fname m thenB) elseB
  | .forS _ body => inspectList fname m body
  | .assign _ _ _ => m
  | .nilRet => m
  | .opaq _ => m

/-- Traversal over a statement list, left to right. -/
def inspectList (fname : String) (m : Option (Stmt × Expr)) :
    List Stmt → Option (Stmt × Expr)
  | [] => m
  | s :: rest => inspectList fname (inspectStmt fname m s) rest
end

/-- `findTailRecursionReturn` (lines 12-56): walk the body, memoising every
return statement whose single result is a call to the enclosing function's
own name; the memo left after the walk is returned. -/
def findTailRecursionReturn (fn : FuncDecl) : Option (Stmt × Expr) :=
  inspectList fn.name none fn.body

mutual
/-- Modelled from the spec's words for claim comparison: the FIRST
tail-recursive return in depth-first traversal order ("Returns the first
such `(Return, Call)` pair found in traversal order"), i.e. a traversal
with a genuine early exit. -/
def firstTailStmt (fname : String) : Stmt → Option (Stmt × Expr)
  | .ret results =>
      match results with
      | [e] =>
          match e with
          | .call (.ident g) args =>
              if g = fname then some (.ret results, .call (.ident g) args)
              else none
          | _ => none
      | _ => none
  | .ifS _ thenB elseB =>
      match firstTailList fname thenB with
      | some r => some r
      | none => firstTailList fname elseB
  | .forS _ body => firstTailList fname body
  | .assign _ _ _ => none
  | .nilRet => none
  | .opaq _ => none

/-- First match in a statement list, stopping at the first hit. -/
def firstTailList (fname : String) : List Stmt → Option (Stmt × Expr)
  | [] => none
  | s :: rest =>
      match firstTailStmt fname s with
      | some r => some r
      | none => firstTailList fname rest
end

/-! ## Condition negation (src/main.go lines 131-153) -/

/-- The `switch be.Op` of `main`: `==` becomes `!=` and vice versa with the
operands untouched; any other binary operator, and any non-binary condition,
is returned unchanged. -/
def negateCond (c : Expr) : Expr :=
  match c with
  | .binary x op y =>
      match op with
      | .eql => .binary x .neq y
      | .neq => .binary x .eql y
      | _ => c
  | _ => c

/-! ## Staging (`makeAssignStmts`, src/main.go lines 59-98)

Both loops of `makeAssignStmts` index a slice positionally (`args[i]` in the
first, `tmpNames[i]` in the second).  A Go out-of-range access panics; the
embedding returns `none` for it and `some` of the built statements
otherwise. -/

/-- First loop (lines 64-77): for each parameter field, skipping fields with
no names, declare `tmp<firstName> := args[i]` where `i` is the field's
position; also record the temporary's name. -/
def stageLoop1 (args : List Expr) (i : Nat) :
    List ParamField → Option (List Stmt × List String)
  | [] => some ([], [])
  | p :: ps =>
      match p.names with
      | [] => stageLoop1 args (i + 1) ps
      | n :: _ => do
          let a ← args[i]?
          let (stmts, tmps) ← stageLoop1 args (i + 1) ps
          pure (Stmt.assign [Expr.ident ("tmp" ++ n)] Tok.define [a] :: stmts,
                ("tmp" ++ n) :: tmps)

/-- Second loop (lines 80-88): for each parameter field, skipping fields with
no names, append the field's first name to the left-hand sides and
`tmpNames[i]` — indexed by the field's position, not by its rank among the
named fields — to the right-hand sides. -/
def stageLoop2 (tmpNames : List String) (i : Nat) :
    List ParamField → Option (List Expr × List Expr)
  | [] => some ([], [])
  | p :: ps =>
      match p.names with
      | [] => stageLoop2 tmpNames (i + 1) ps
      | n :: _ => do
          let t ← tmpNames[i]?
          let (lhs, rhs) ← stageLoop2 tmpNames (i + 1) ps
          pure (Expr.ident n :: lhs, Expr.ident t :: rhs)

/-- `makeAssignStmts` (lines 59-98): the declaring assignments of the first
loop followed by the one combined assignment built by the second loop. -/
def makeAssignStmts (params : List ParamField) (args : List Expr) :
    Option (List Stmt) := do
  let (stmts, tmpNames) ← stageLoop1 args 0 params
  let (lhs, rhs) ← stageLoop2 tmpNames 0 params
  pure (stmts ++ [Stmt.assign lhs Tok.assign rhs])

/-! ## Driver (src/main.go lines 107-196, one function declaration) -/

/-- The shape test of lines 167-177: a return statement with exactly one
result that is a call whose callee identifier equals `fname`. -/
def isTailRecReturn (fname : String) (s : Stmt) : Bool :=
  match s with
  | .ret [.call (.ident g) _] => g == fname
  | _ => false

/-- Lines 181-185: `baseIf.Body.List[0].(*ast.ReturnStmt)` with the error
ignored — `some` only when the then-branch is non-empty and its first
statement is a return. -/
def baseReturnOf (thenB : List Stmt) : Option Stmt :=
  match thenB with
  | .ret rs :: _ => some (.ret rs)
  | _ => none

/-- The argument list of a call expression (`callExpr.Args`). -/
def callArgs : Expr → List Expr
  | .call _ args => args
  | _ => []

/-- One iteration of `main`'s declaration loop (lines 107-196) on a single
function declaration.  `none` models a runtime panic inside
`makeAssignStmts`; `some fn` with an untouched `fn` models `continue`.
The code's `stmt == baseIf` test is Go pointer identity, which in a parsed
tree holds exactly for the element at index 0 (where `baseIf` was taken
from), so the remainder is `body.drop 1` filtered. -/
def rewriteFn (fn : FuncDecl) : Option FuncDecl :=
  match findTailRecursionReturn fn with
  | none => some fn
  | some (_tailRet, callExpr) =>
      match fn.body with
      | .ifS bcond bthen _belse :: rest =>
          let cond := negateCond bcond
          match makeAssignStmts fn.params (callArgs callExpr) with
          | none => none
          | some assignStmts =>
              let nonRecursiveStmts :=
                rest.filter (fun s => !isTailRecReturn fn.name s)
              let baseReturn := baseReturnOf bthen
              some { fn with
                     body := [.forS cond (assignStmts ++ nonRecursiveStmts),
                              baseReturn.getD .nilRet] }
      | _ => some fn

/-! ## Concrete programs from the spec's scenarios -/

/-- `func Sum(n int, acc int) int { if n == 0 { return acc }; return Sum(n-1, acc+n) }`,
the accumulator scenario, with each parameter its own field. -/
def sumFn : FuncDecl :=
  { name := "Sum"
    params := [⟨["n"]⟩, ⟨["acc"]⟩]
    body := [
      .ifS (.binary (.ident "n") .eql (.intLit 0)) [.ret [.ident "acc"]] [],
      .ret [.call (.ident "Sum")
        [.binary (.ident "n") .sub (.intLit 1),
         .binary (.ident "acc") .add (.ident "n")]]] }

/-- The staged parameter update the spec expects for `Sum`:
`tmpn := n - 1; tmpacc := acc + n; n, acc = tmpn, tmpacc`. -/
def sumStaging : List Stmt :=
  [ .assign [.ident "tmpn"] .define
      [.binary (.ident "n") .sub (.intLit 1)],
    .assign [.ident "tmpacc"] .define
      [.binary (.ident "acc") .add (.ident "n")],
    .assign [.ident "n", .ident "acc"] .assign
      [.ident "tmpn", .ident "tmpacc"] ]

/-- The loop statement of the rewritten `Sum`: `for n != 0 { ...staging... }`. -/
def sumLoop : Stmt :=
  .forS (.binary (.ident "n") .neq (.intLit 0)) sumStaging

/-- The loop form the spec expects for `Sum`. -/
def sumRewritten : FuncDecl :=
  { name := "Sum"
    params := [⟨["n"]⟩, ⟨["acc"]⟩]
    body := [sumLoop, .ret [.ident "acc"]] }


/-! ## Semantics of the interpreted toy programs

A fuel-indexed interpreter for the statement/expression language above,
used to compare the recursive scenarios of the spec (`Sum`, the swap
function `F`) with their rewritten loop forms.  The store is flat (one
mapping from names to integer values); the interpreted programs introduce
only names that do not shadow existing ones, so Go's block scoping and the
flat store agree on them.  Every recursive call consumes one unit of fuel;
`none` means the fuel ran out or an unsupported construct was reached. -/

/-- A store mapping identifier names to integer values. -/
def Env : Type := String → Int

/-- Point update of a store. -/
def Env.update (env : Env) (x : String) (v : Int) : Env :=
  fun y => if y = x then v else env y

/-- Left-to-right sequence of point updates (Go's multi-assignment commits
all values, already evaluated, in left-to-right order). -/
def updateMany (env : Env) : List String → List Int → Env
  | x :: xs, v :: vs => updateMany (env.update x v) xs vs
  | _, _ => env

/-- Assignment targets must be plain identifiers to be interpreted. -/
def identName? : Expr → Option String
  | .ident n => some n
  | _ => none

/-- Result of running statements: an early `return v`, or fall-through with
the updated store. -/
inductive Outcome where
  | ret (v : Int)
  | next (env : Env)

/-- Function lookup by name in a list of declarations. -/
def lookupFn (fs : List FuncDecl) (g : String) : Option FuncDecl :=
  fs.find? (fun fn => fn.name == g)

mutual
/-- Evaluate an arithmetic expression. -/
def evalExpr : List FuncDecl → Nat → Env → Expr → Option Int
  | _, 0, _, _ => none
  | fs, fuel + 1, env, e =>
    match e with
    | .ident x => some (env x)
    | .intLit v => some v
    | .binary x op y => do
        let a ← evalExpr fs fuel env x
        let b ← evalExpr fs fuel env y
        match op with
        | .add => some (a + b)
        | .sub => some (a - b)
        | _ => none
    | .call (.ident g) args => do
        let vs ← evalExprList fs fuel env args
        callFn fs fuel g vs
    | _ => none

/-- Evaluate a list of expressions, left to right. -/
def evalExprList : List FuncDecl → Nat → Env → List Expr → Option (List Int)
  | _, 0, _, _ => none
  | fs, fuel + 1, env, es =>
    match es with
    | [] => some []
    | e :: rest => do
        let v ← evalExpr fs fuel env e
        let vs ← evalExprList fs fuel env rest
        pure (v :: vs)

/-- Evaluate a boolean condition (an equality or inequality comparison). -/
def evalCond : List FuncDecl → Nat → Env → Expr → Option Bool
  | _, 0, _, _ => none
  | fs, fuel + 1, env, c =>
    match c with
    | .binary x .eql y => do
        let a ← evalExpr fs fuel env x
        let b ← evalExpr fs fuel env y
        pure (a == b)
    | .binary x .neq y => do
        let a ← evalExpr fs fuel env x
        let b ← evalExpr fs fuel env y
        pure (a != b)
    | _ => none

/-- Execute one statement. -/
def execStmt : List FuncDecl → Nat → Env → Stmt → Option Outcome
  | _, 0, _, _ => none
  | fs, fuel + 1, env, s =>
    match s with
    | .assign lhs _tok rhs => do
        let vs ← evalExprList fs fuel env rhs
        let xs ← lhs.mapM identName?
        pure (.next (updateMany env xs vs))
    | .ret [e] => do
        let v ← evalExpr fs fuel env e
        pure (.ret v)
    | .ifS c thenB elseB => do
        let b ← evalCond fs fuel env c
        if b then execList fs fuel env thenB else execList fs fuel env elseB
    | .forS c body => do
        let b ← evalCond fs fuel env c
        if b then
          match execList fs fuel env body with
          | some (.next envE) => execStmt fs fuel envE (.forS c body)
          | r => r
        else pure (.next env)
    | _ => none

/-- Execute a statement sequence, threading the store, stopping at a return. -/
def execList : List FuncDecl → Nat → Env → List Stmt → Option Outcome
  | _, 0, _, _ => none
  | fs, fuel + 1, env, ss =>
    match ss with
    | [] => some (.next env)
    | s :: rest =>
        match execStmt fs fuel env s with
        | some (.next envE) => execList fs fuel envE rest
        | r => r

/-- Call a declared function on argument values: bind the parameter names
(in declaration order, all names of every field) and run the body.  Calls
whose arity does not match the declaration would not compile in Go, so they
are left uninterpreted. -/
def callFn : List FuncDecl → Nat → String → List Int → Option Int
  | _, 0, _, _ => none
  | fs, fuel + 1, g, vs =>
    match lookupFn fs g with
    | none => none
    | some fn =>
        let ns := fn.params.flatMap (fun p => p.names)
        if ns.length = vs.length then
          match execList fs fuel (updateMany (fun _ => 0) ns vs) fn.body with
          | some (.ret v) => some v
          | _ => none
        else none
end


/-! ## Further definitions used by the claims -/

/-- Triangular number: `sumTo m = 0 + 1 + ... + m`, the value the recursive
`Sum` accumulates. -/
def sumTo : Nat → Nat
  | 0 => 0
  | m + 1 => sumTo m + (m + 1)

mutual
/-- All identifier names occurring in an expression. -/
def Expr.idents : Expr → List String
  | .ident n => [n]
  | .intLit _ => []
  | .call f args => f.idents ++ exprListIdents args
  | .binary x _ y => x.idents ++ y.idents
  | .opaq _ => []

/-- Identifier names of a list of expressions. -/
def exprListIdents : List Expr → List String
  | [] => []
  | e :: es => e.idents ++ exprListIdents es
end

mutual
/-- All identifier names occurring in a statement. -/
def Stmt.idents : Stmt → List String
  | .ifS c thenB elseB => c.idents ++ stmtListIdents thenB ++ stmtListIdents elseB
  | .ret rs => exprListIdents rs
  | .assign lhs _ rhs => exprListIdents lhs ++ exprListIdents rhs
  | .forS c body => c.idents ++ stmtListIdents body
  | .nilRet => []
  | .opaq _ => []

/-- Identifier names of a list of statements. -/
def stmtListIdents : List Stmt → List String
  | [] => []
  | s :: ss => s.idents ++ stmtListIdents ss
end

/-- Every identifier occurring in a function declaration: its name, its
parameter names and everything in its body (argument expressions of the
self-call included, since they sit in the body). -/
def fnIdents (fn : FuncDecl) : List String :=
  fn.name :: (fn.params.flatMap (fun p => p.names) ++ stmtListIdents fn.body)

/-- The temporary names `makeAssignStmts` derives: `tmp` + first name of
each named field. -/
def tmpNamesOfParams (params : List ParamField) : List String :=
  params.filterMap (fun p => p.names.head?.map (fun n => "tmp" ++ n))

/-- First declared name of a parameter field (`param.Names[0]`). -/
def headNameOf (f : ParamField) : String := f.names.headD ""

/-- The temporary name derived for a field: `"tmp" + param.Names[0].Name`. -/
def tmpNameOf (f : ParamField) : String := "tmp" ++ headNameOf f

/-- The declaring assignment the first staging loop emits for a named field
paired with the call argument at the field's position. -/
def defineStmtOf (f : ParamField) (a : Expr) : Stmt :=
  .assign [.ident (tmpNameOf f)] .define [a]

/-- Number of named fields of a parameter list. -/
def namedCount (params : List ParamField) : Nat :=
  (params.filter (fun p => !p.names.isEmpty)).length

/-- `true` when some field with no names appears before a field with
names. -/
def unnamedBeforeNamed : List ParamField → Bool
  | [] => false
  | p :: rest =>
      if p.names.isEmpty then rest.any (fun q => !q.names.isEmpty)
      else unnamedBeforeNamed rest

/-! ### Concrete programs for the remaining scenarios -/

/-- A function with two tail-recursive returns: one inside the guard's
then-branch, one as the final statement —
`func f(n int) int { if n == 0 { return f(1) }; return f(2) }`. -/
def twoTailFn : FuncDecl :=
  { name := "f"
    params := [⟨["n"]⟩]
    body := [
      .ifS (.binary (.ident "n") .eql (.intLit 0))
        [.ret [.call (.ident "f") [.intLit 1]]] [],
      .ret [.call (.ident "f") [.intLit 2]] ] }

/-- A function whose guard's then-branch does not begin with a return —
`func f(n int) int { if n == 0 { n = 1 }; return f(n - 1) }`. -/
def noBaseRetFn : FuncDecl :=
  { name := "f"
    params := [⟨["n"]⟩]
    body := [
      .ifS (.binary (.ident "n") .eql (.intLit 0))
        [.assign [.ident "n"] .assign [.intLit 1]] [],
      .ret [.call (.ident "f") [.binary (.ident "n") .sub (.intLit 1)]] ] }

/-- What the driver makes of `noBaseRetFn`: the body is replaced although no
usable base return exists; the trailing statement is the nil return. -/
def noBaseRetFnRewritten : FuncDecl :=
  { name := "f"
    params := [⟨["n"]⟩]
    body := [
      .forS (.binary (.ident "n") .neq (.intLit 0))
        [ .assign [.ident "tmpn"] .define
            [.binary (.ident "n") .sub (.intLit 1)],
          .assign [.ident "n"] .assign [.ident "tmpn"] ],
      .nilRet ] }

/-- The swap scenario:
`func F(a int, b int) int { if a == 0 { return b }; return F(b, a) }`. -/
def swapFn : FuncDecl :=
  { name := "F"
    params := [⟨["a"]⟩, ⟨["b"]⟩]
    body := [
      .ifS (.binary (.ident "a") .eql (.intLit 0)) [.ret [.ident "b"]] [],
      .ret [.call (.ident "F") [.ident "b", .ident "a"]] ] }

/-- The staging statements produced for `swapFn`'s self-call `F(b, a)`:
`tmpa := b; tmpb := a; a, b = tmpa, tmpb`. -/
def swapStaging : List Stmt :=
  [ .assign [.ident "tmpa"] .define [.ident "b"],
    .assign [.ident "tmpb"] .define [.ident "a"],
    .assign [.ident "a", .ident "b"] .assign
      [.ident "tmpa", .ident "tmpb"] ]

/-- One pass of the rewritten loop's staging block over a store (fuel 8 is
more than the fixed depth of these three assignments). -/
def stepSwap (env : Env) : Option Env :=
  match execList [] 8 env swapStaging with
  | some (.next e) => some e
  | _ => none

/-- `k` iterations of the staging block. -/
def iterSwap : Nat → Env → Option Env
  | 0, env => some env
  | k + 1, env => do iterSwap k (← stepSwap env)

/-- The argument pair of the `k`-th nested call the recursive `F` would
perform from `(a, b)`: each self-call is `F(b, a)`. -/
def swapIter : Nat → Int × Int → Int × Int
  | 0, p => p
  | k + 1, (a, b) => swapIter k (b, a)

/-- Initial store binding `a` and `b`. -/
def envAB (a b : Int) : Env :=
  Env.update (Env.update (fun _ => 0) "a" a) "b" b

/-- A function with two top-level tail-recursive returns after the guard —
`func f(n int) int { if n == 0 { return 0 }; return f(1); return f(2) }`
(dead code, but well-formed syntax). -/
def twoTopTailFn : FuncDecl :=
  { name := "f"
    params := [⟨["n"]⟩]
    body := [
      .ifS (.binary (.ident "n") .eql (.intLit 0)) [.ret [.intLit 0]] [],
      .ret [.call (.ident "f") [.intLit 1]],
      .ret [.call (.ident "f") [.intLit 2]] ] }

/-- What the driver makes of `twoTopTailFn`: both top-level self-call
returns are dropped from the loop body, not only the one the detector
reported. -/
def twoTopTailFnRewritten : FuncDecl :=
  { name := "f"
    params := [⟨["n"]⟩]
    body := [
      .forS (.binary (.ident "n") .neq (.intLit 0))
        [ .assign [.ident "tmpn"] .define [.intLit 2],
          .assign [.ident "n"] .assign [.ident "tmpn"] ],
      .ret [.intLit 0] ] }

/-- A function whose second parameter is already called `tmpn`, colliding
with the temporary derived for `n` —
`func f(n int, tmpn int) int { if n == 0 { return tmpn }; return f(n - 1, tmpn) }`. -/
def collideFn : FuncDecl :=
  { name := "f"
    params := [⟨["n"]⟩, ⟨["tmpn"]⟩]
    body := [
      .ifS (.binary (.ident "n") .eql (.intLit 0)) [.ret [.ident "tmpn"]] [],
      .ret [.call (.ident "f")
        [.binary (.ident "n") .sub (.intLit 1), .ident "tmpn"]] ] }

/-- The accumulator function with both parameters declared in one shared
field: `func Sum(n, acc int) int { ... }` (same body as `sumFn`). -/
def sumSharedFn : FuncDecl :=
  { name := "Sum"
    params := [⟨["n", "acc"]⟩]
    body := [
      .ifS (.binary (.ident "n") .eql (.intLit 0)) [.ret [.ident "acc"]] [],
      .ret [.call (.ident "Sum")
        [.binary (.ident "n") .sub (.intLit 1),
         .binary (.ident "acc") .add (.ident "n")]]] }

/-- What the driver makes of `sumSharedFn`: only `n`, the first name of the
shared field, is staged and reassigned; `acc` is never updated. -/
def sumSharedRewritten : FuncDecl :=
  { name := "Sum"
    params := [⟨["n", "acc"]⟩]
    body := [
      .forS (.binary (.ident "n") .neq (.intLit 0))
        [ .assign [.ident "tmpn"] .define
            [.binary (.ident "n") .sub (.intLit 1)],
          .assign [.ident "n"] .assign [.ident "tmpn"] ],
      .ret [.ident "acc"] ] }

/-- What the driver makes of `collideFn`: the temporary derived for `n` is
`tmpn`, which is also the second parameter's name. -/
def collideFnRewritten : FuncDecl :=
  { name := "f"
    params := [⟨["n"]⟩, ⟨["tmpn"]⟩]
    body := [
      .forS (.binary (.ident "n") .neq (.intLit 0))
        [ .assign [.ident "tmpn"] .define
            [.binary (.ident "n") .sub (.intLit 1)],
          .assign [.ident "tmptmpn"] .define [.ident "tmpn"],
          .assign [.ident "n", .ident "tmpn"] .assign
            [.ident "tmpn", .ident "tmptmpn"] ],
      .ret [.ident "tmpn"] ] }

/-! ## Theorems -/

/-- C8: the condition negation maps `EQ` to `NE` and `NE` to `EQ` with
identical operands, returns any other comparison operator and any
non-comparison condition unchanged; in particular `x == 0` yields `x != 0`
and `x != 0` yields `x == 0`. -/
theorem negateCond_correct :
    (∀ x y, negateCond (.binary x .eql y) = .binary x .neq y) ∧
    (∀ x y, negateCond (.binary x .neq y) = .binary x .eql y) ∧
    (∀ x op y, op ≠ Tok.eql → op ≠ Tok.neq →
      negateCond (.binary x op y) = .binary x op y) ∧
    (∀ c, (∀ x op y, c ≠ .binary x op y) → negateCond c = c) ∧
    negateCond (.binary (.ident "x") .eql (.intLit 0)) =
      .binary (.ident "x") .neq (.intLit 0) ∧
    negateCond (.binary (.ident "x") .neq (.intLit 0)) =
      .binary (.ident "x") .eql (.intLit 0) := by
  refine ⟨fun x y => rfl, fun x y => rfl, ?_, ?_, rfl, rfl⟩
  · intro x op y h1 h2
    cases op <;> first | rfl | exact absurd rfl h1 | exact absurd rfl h2
  · intro c h
    cases c <;> first | rfl | exact absurd rfl (h _ _ _)

/-- Witness for C8: a `<` comparison and a bare identifier pass through
`negateCond` unchanged. -/
theorem negateCond_correct_witness :
    negateCond (.binary (.ident "x") .lss (.intLit 0)) =
      .binary (.ident "x") .lss (.intLit 0) ∧
    negateCond (.ident "b") = .ident "b" :=
  ⟨negateCond_correct.2.2.1 (.ident "x") .lss (.intLit 0)
      (by decide) (by decide),
   negateCond_correct.2.2.2.1 (.ident "b") (fun x op y h => by cases h)⟩

/-- C10: with two parameters declared in one shared field, the staging
pairs call arguments with fields (the second argument is dropped), derives
a temporary from and reassigns only the field's first name, and the later
name `acc` appears nowhere in the staging output; consequently the
shared-field `Sum` is rewritten with only `n` updated. -/
theorem shared_field_staging :
    makeAssignStmts [⟨["n", "acc"]⟩]
      [.binary (.ident "n") .sub (.intLit 1),
       .binary (.ident "acc") .add (.ident "n")] =
      some [.assign [.ident "tmpn"] .define
              [.binary (.ident "n") .sub (.intLit 1)],
            .assign [.ident "n"] .assign [.ident "tmpn"]] ∧
    "acc" ∉ stmtListIdents
      [.assign [.ident "tmpn"] .define
         [.binary (.ident "n") .sub (.intLit 1)],
       .assign [.ident "n"] .assign [.ident "tmpn"]] ∧
    rewriteFn sumSharedFn = some sumSharedRewritten ∧
    "acc" ∈ sumSharedFn.params.flatMap (fun p => p.names) :=
  ⟨rfl, by decide, rfl, by decide⟩

/-- C2: on a body with a tail-recursive return inside the guard followed by
a second one at top level, `findTailRecursionReturn` reports the second
(last) pair although the first pair in depth-first order is the one inside
the guard: returning `false` from an `ast.Inspect` visitor only prunes the
children of the current node, so a later match overwrites the memo, while
the code's own comment intends the search to stop at the first match. -/
theorem detector_reports_last_not_first :
    findTailRecursionReturn twoTailFn =
      some (.ret [.call (.ident "f") [.intLit 2]],
            .call (.ident "f") [.intLit 2]) ∧
    firstTailList "f" twoTailFn.body =
      some (.ret [.call (.ident "f") [.intLit 1]],
            .call (.ident "f") [.intLit 1]) ∧
    (Stmt.ret [.call (.ident "f") [.intLit 2]],
     Expr.call (.ident "f") [.intLit 2]) ≠
      (Stmt.ret [.call (.ident "f") [.intLit 1]],
       Expr.call (.ident "f") [.intLit 1]) := by
  refine ⟨rfl, rfl, ?_⟩
  intro h
  simp only [Prod.mk.injEq, Stmt.ret.injEq, List.cons.injEq,
    Expr.call.injEq, Expr.intLit.injEq] at h
  omega

/-- C3: a function with a tail self-call whose guard's then-branch does not
begin with a return statement is still mutated: the driver never checks
that `baseReturn` was actually extracted, so the body is replaced by a loop
followed by a nil return statement. -/
theorem missing_base_return_still_mutates :
    rewriteFn noBaseRetFn = some noBaseRetFnRewritten ∧
    noBaseRetFnRewritten.body ≠ noBaseRetFn.body ∧
    noBaseRetFnRewritten.body.getLast? = some Stmt.nilRet := by
  refine ⟨rfl, ?_, rfl⟩
  intro h
  simp only [noBaseRetFnRewritten, noBaseRetFn] at h
  injection h with h1 h2
  exact Stmt.noConfusion h1

/-! ### Staging lemmas -/

/-- If some named field sits at a position at or past the end of the
argument list, the first staging loop hits `args[i]` out of range. -/
theorem stageLoop1_oob (args : List Expr) :
    ∀ (ps : List ParamField) (i : Nat),
      (∃ j f, ps[j]? = some f ∧ f.names ≠ [] ∧ args.length ≤ i + j) →
      stageLoop1 args i ps = none := by
  intro ps
  induction ps with
  | nil =>
      rintro i ⟨j, f, hj, -, -⟩
      simp at hj
  | cons p rest ih =>
      rintro i ⟨j, f, hj, hnames, hlen⟩
      match hp : p.names with
      | [] =>
          cases j with
          | zero =>
              rw [List.getElem?_cons_zero, Option.some.injEq] at hj
              exact absurd (hj ▸ hp) hnames
          | succ j' =>
              rw [List.getElem?_cons_succ] at hj
              have hrec := ih (i + 1) ⟨j', f, hj, hnames, by omega⟩
              simp [stageLoop1, hp, hrec]
      | n :: ns =>
          by_cases hi : args.length ≤ i
          · simp [stageLoop1, hp, List.getElem?_eq_none hi]
          · cases j with
            | zero =>
                rw [List.getElem?_cons_zero] at hj
                omega
            | succ j' =>
                rw [List.getElem?_cons_succ] at hj
                have hrec := ih (i + 1) ⟨j', f, hj, hnames, by omega⟩
                cases harg : args[i]? <;> simp [stageLoop1, hp, harg, hrec]

/-- A run of fields with no names contributes nothing to the first loop. -/
theorem stageLoop1_unnamed (args : List Expr) (up : List ParamField)
    (hup : ∀ f ∈ up, f.names = []) :
    ∀ i, stageLoop1 args i up = some ([], []) := by
  induction up with
  | nil => intro i; rfl
  | cons q rest ih =>
      intro i
      have hq : q.names = [] := hup q (by simp)
      have := ih (fun f hf => hup f (by simp [hf])) (i + 1)
      simp [stageLoop1, hq, this]

/-- Shape of the first loop on a block of named fields followed by a block
of unnamed fields, all named positions covered by the arguments: one
declaring assignment per named field, paired with the argument at the
field's position, plus the derived temporary names. -/
theorem stageLoop1_shape (args : List Expr) (up : List ParamField)
    (hup : ∀ f ∈ up, f.names = []) :
    ∀ (np : List ParamField) (i : Nat),
      (∀ f ∈ np, f.names ≠ []) → i + np.length ≤ args.length →
      stageLoop1 args i (np ++ up) =
        some (List.zipWith defineStmtOf np (args.drop i), np.map tmpNameOf) := by
  intro np
  induction np with
  | nil =>
      intro i _ _
      simpa using stageLoop1_unnamed args up hup i
  | cons f np' ih =>
      intro i hnp hlen
      have hi : i < args.length := by simp at hlen; omega
      match hf : f.names with
      | [] => exact absurd hf (hnp f (by simp))
      | n :: ns =>
          have hrec := ih (i + 1) (fun g hg => hnp g (by simp [hg]))
            (by simp at hlen ⊢; omega)
          rw [List.cons_append]
          simp only [stageLoop1, hf, List.getElem?_eq_getElem hi, hrec]
          rw [List.drop_eq_getElem_cons hi, List.zipWith_cons_cons,
            List.map_cons]
          simp only [defineStmtOf, tmpNameOf, headNameOf, hf, List.headD_cons]
          rfl

/-- A run of fields with no names contributes nothing to the second loop. -/
theorem stageLoop2_unnamed (tmps : List String) (up : List ParamField)
    (hup : ∀ f ∈ up, f.names = []) :
    ∀ i, stageLoop2 tmps i up = some ([], []) := by
  induction up with
  | nil => intro i; rfl
  | cons q rest ih =>
      intro i
      have hq : q.names = [] := hup q (by simp)
      have := ih (fun f hf => hup f (by simp [hf])) (i + 1)
      simp [stageLoop2, hq, this]

/-- Shape of the second loop under the same conditions: the left-hand sides
are the first names of the named fields, the right-hand sides the recorded
temporaries at the fields' positions. -/
theorem stageLoop2_shape (tmps : List String) (up : List ParamField)
    (hup : ∀ f ∈ up, f.names = []) :
    ∀ (np : List ParamField) (i : Nat),
      (∀ f ∈ np, f.names ≠ []) → i + np.length ≤ tmps.length →
      stageLoop2 tmps i (np ++ up) =
        some (np.map (fun f => Expr.ident (headNameOf f)),
              ((tmps.drop i).take np.length).map Expr.ident) := by
  intro np
  induction np with
  | nil =>
      intro i _ _
      simpa using stageLoop2_unnamed tmps up hup i
  | cons f np' ih =>
      intro i hnp hlen
      have hi : i < tmps.length := by simp at hlen; omega
      match hf : f.names with
      | [] => exact absurd hf (hnp f (by simp))
      | n :: ns =>
          have hrec := ih (i + 1) (fun g hg => hnp g (by simp [hg]))
            (by simp at hlen ⊢; omega)
          rw [List.cons_append]
          simp only [stageLoop2, hf, List.getElem?_eq_getElem hi, hrec]
          rw [List.drop_eq_getElem_cons hi]
          simp only [List.length_cons, List.take_succ_cons, List.map_cons,
            headNameOf, hf, List.headD_cons]
          rfl

/-- Output of `makeAssignStmts` on a named block followed by an unnamed
block, every named field covered by an argument: one declaring assignment
per named field (argument at the field's position), then the single
combined assignment over the named fields' first names. -/
theorem makeAssignStmts_shape (np up : List ParamField) (args : List Expr)
    (hnp : ∀ f ∈ np, f.names ≠ []) (hup : ∀ f ∈ up, f.names = [])
    (hlen : np.length ≤ args.length) :
    makeAssignStmts (np ++ up) args =
      some (List.zipWith defineStmtOf np args ++
        [Stmt.assign (np.map (fun f => Expr.ident (headNameOf f))) Tok.assign
           (np.map (fun f => Expr.ident (tmpNameOf f)))]) := by
  have h1 := stageLoop1_shape args up hup np 0 hnp (by simpa)
  have h2 := stageLoop2_shape (np.map tmpNameOf) up hup np 0 hnp (by simp)
  simp only [List.drop_zero] at h1 h2
  rw [List.take_of_length_le (by simp)] at h2
  simp [makeAssignStmts, h1, h2, List.map_map, Function.comp]

/-- Number of named fields in `p :: rest` when `p` is unnamed. -/
theorem namedCount_cons_unnamed (p : ParamField) (rest : List ParamField)
    (hp : p.names = []) : namedCount (p :: rest) = namedCount rest := by
  simp [namedCount, List.filter, hp]

/-- Number of named fields in `p :: rest` when `p` is named. -/
theorem namedCount_cons_named (p : ParamField) (rest : List ParamField)
    (hp : ¬ p.names = []) : namedCount (p :: rest) = namedCount rest + 1 := by
  simp [namedCount, List.filter_cons, hp]

/-- A list with some named field has positive named count. -/
theorem namedCount_pos_of_any (rest : List ParamField)
    (h : rest.any (fun q => !q.names.isEmpty) = true) :
    1 ≤ namedCount rest := by
  obtain ⟨q, hq, hqn⟩ := List.any_eq_true.mp h
  have : q ∈ rest.filter (fun p => !p.names.isEmpty) :=
    List.mem_filter.mpr ⟨hq, hqn⟩
  exact List.length_pos_of_mem this

/-- Fault analysis of the second loop: walking a suffix `ps` at position
`i`, the access `tmpNames[i]` eventually goes out of range whenever the
position already exceeds its named budget, or an unnamed field still lies
before a named one. -/
theorem stageLoop2_oob (tmps : List String) :
    ∀ (ps : List ParamField) (i : Nat),
      tmps.length ≤ i + namedCount ps →
      ((tmps.length + 1 ≤ i + namedCount ps ∧ 1 ≤ namedCount ps) ∨
        unnamedBeforeNamed ps = true) →
      stageLoop2 tmps i ps = none := by
  intro ps
  induction ps with
  | nil =>
      intro i h1 h2
      rcases h2 with ⟨-, h2⟩ | h2
      · simp [namedCount] at h2
      · exact absurd h2 (by decide)
  | cons p rest ih =>
      intro i h1 h2
      match hp : p.names with
      | [] =>
          rw [namedCount_cons_unnamed p rest hp] at h1 h2
          have hub : unnamedBeforeNamed (p :: rest) =
              rest.any (fun q => !q.names.isEmpty) := by
            simp [unnamedBeforeNamed, hp]
          have hrec : stageLoop2 tmps (i + 1) rest = none := by
            apply ih (i + 1) (by omega)
            left
            rcases h2 with ⟨ha, hb⟩ | h2
            · exact ⟨by omega, hb⟩
            · rw [hub] at h2
              exact ⟨by omega, namedCount_pos_of_any rest h2⟩
          simp [stageLoop2, hp, hrec]
      | n :: ns =>
          have hpn : ¬ p.names = [] := by simp [hp]
          rw [namedCount_cons_named p rest hpn] at h1 h2
          by_cases hi : tmps.length ≤ i
          · simp [stageLoop2, hp, List.getElem?_eq_none hi]
          · have hrec : stageLoop2 tmps (i + 1) rest = none := by
              apply ih (i + 1) (by omega)
              rcases h2 with ⟨ha, hb⟩ | h2
              · left
                constructor
                · omega
                · by_contra hc
                  have : namedCount rest = 0 := by omega
                  omega
              · right
                simpa [unnamedBeforeNamed, hp] using h2
            cases ht : tmps[i]? <;> simp [stageLoop2, hp, ht, hrec]

/-- The first loop records exactly one temporary per named field. -/
theorem stageLoop1_tmps_length (args : List Expr) :
    ∀ (ps : List ParamField) (i : Nat) (s : List Stmt) (t : List String),
      stageLoop1 args i ps = some (s, t) → t.length = namedCount ps := by
  intro ps
  induction ps with
  | nil =>
      intro i s t h
      simp [stageLoop1] at h
      simp [← h.2, namedCount]
  | cons p rest ih =>
      intro i s t h
      match hp : p.names with
      | [] =>
          rw [namedCount_cons_unnamed p rest hp]
          simp only [stageLoop1, hp] at h
          exact ih (i + 1) s t h
      | n :: ns =>
          have hpn : ¬ p.names = [] := by simp [hp]
          rw [namedCount_cons_named p rest hpn]
          simp only [stageLoop1, hp] at h
          cases harg : args[i]? with
          | none => simp [harg] at h
          | some a =>
              rw [harg] at h
              cases hrec : stageLoop1 args (i + 1) rest with
              | none => simp [hrec] at h
              | some st =>
                  obtain ⟨s', t'⟩ := st
                  rw [hrec] at h
                  have h' := Option.some.inj h
                  have ht : ("tmp" ++ n) :: t' = t := congrArg Prod.snd h'
                  have := ih (i + 1) s' t' hrec
                  rw [← ht]
                  simp [this]

/-- Whenever an unnamed field precedes a named one, `makeAssignStmts`
panics (in the second loop at the latest). -/
theorem makeAssignStmts_ubn_none (params : List ParamField)
    (args : List Expr) (h : unnamedBeforeNamed params = true) :
    makeAssignStmts params args = none := by
  cases h1 : stageLoop1 args 0 params with
  | none => simp [makeAssignStmts, h1]
  | some st =>
      obtain ⟨s, t⟩ := st
      have hlen : t.length = namedCount params :=
        stageLoop1_tmps_length args params 0 s t h1
      have h2 : stageLoop2 t 0 params = none :=
        stageLoop2_oob t params 0 (by omega) (Or.inr h)
      simp [makeAssignStmts, h1, h2]

/-- C4 counterexample: with two single-name parameter fields and only one
call argument, the staging step produces no matched-length output at all —
it faults (`none` models the `args[1]` index-out-of-range panic). -/
theorem short_args_cex :
    makeAssignStmts [⟨["a"]⟩, ⟨["b"]⟩] [.ident "x"] = none ∧
    ∀ out, makeAssignStmts [⟨["a"]⟩, ⟨["b"]⟩] [.ident "x"] ≠ some out := by
  refine ⟨rfl, fun out h => ?_⟩
  rw [show makeAssignStmts [⟨["a"]⟩, ⟨["b"]⟩] [.ident "x"] = none
      from rfl] at h
  cases h

/-- C4 amended: when the detected self-call supplies fewer arguments than
there are parameter fields — precisely, when some named field sits at a
position not covered by the argument list — the staging step faults with an
out-of-range index access instead of processing a matched-length portion;
nothing is staged. -/
theorem short_args_fault (params : List ParamField) (args : List Expr)
    (j : Nat) (f : ParamField) (hj : params[j]? = some f)
    (hnamed : f.names ≠ []) (hshort : args.length ≤ j) :
    makeAssignStmts params args = none := by
  have h := stageLoop1_oob args params 0 ⟨j, f, hj, hnamed, by omega⟩
  simp [makeAssignStmts, h]

/-- Witness for C4's amended theorem: a two-field function whose self-call
passes no arguments faults in the staging step. -/
theorem short_args_fault_witness :
    makeAssignStmts [⟨["p"]⟩, ⟨["q"]⟩] [] = none :=
  short_args_fault [⟨["p"]⟩, ⟨["q"]⟩] [] 0 ⟨["p"]⟩ rfl (by decide) (by decide)

/-- C5 counterexample: a parameter list with an unnamed field before a
named one makes the staging step fault (`tmpNames[1]` is out of range in
the second loop) rather than completing with the unnamed field skipped. -/
theorem unnamed_before_named_cex :
    makeAssignStmts [⟨[]⟩, ⟨["a"]⟩] [.intLit 1, .intLit 2] = none ∧
    ∀ out, makeAssignStmts [⟨[]⟩, ⟨["a"]⟩] [.intLit 1, .intLit 2] ≠
      some out := by
  refine ⟨rfl, fun out h => ?_⟩
  rw [show makeAssignStmts [⟨[]⟩, ⟨["a"]⟩] [.intLit 1, .intLit 2] = none
      from rfl] at h
  cases h

/-- C5 amended: unnamed parameter fields are skipped — neither captured
into a temporary nor reassigned — and the named ones are staged normally
with the rewrite completing without fault, provided every unnamed field
comes after all named ones (all positions of named fields covered by
arguments); when an unnamed field precedes a named one, the staging step
faults with an out-of-range access. -/
theorem unnamed_param_staging :
    (∀ (np up : List ParamField) (args : List Expr),
      (∀ f ∈ np, f.names ≠ []) → (∀ f ∈ up, f.names = []) →
      np.length ≤ args.length →
      makeAssignStmts (np ++ up) args =
        some (List.zipWith defineStmtOf np args ++
          [Stmt.assign (np.map (fun f => Expr.ident (headNameOf f)))
             Tok.assign
             (np.map (fun f => Expr.ident (tmpNameOf f)))])) ∧
    (∀ (params : List ParamField) (args : List Expr),
      unnamedBeforeNamed params = true →
      makeAssignStmts params args = none) :=
  ⟨fun np up args hnp hup hlen => makeAssignStmts_shape np up args hnp hup hlen,
   fun params args h => makeAssignStmts_ubn_none params args h⟩

/-- Witness for C5's amended theorem: one named field followed by one
unnamed field stages only the named one and completes; an unnamed field
followed by a named one faults. -/
theorem unnamed_param_staging_witness :
    makeAssignStmts [⟨["a"]⟩, ⟨[]⟩] [.intLit 5] =
      some [.assign [.ident "tmpa"] .define [.intLit 5],
            .assign [.ident "a"] .assign [.ident "tmpa"]] ∧
    makeAssignStmts [⟨[]⟩, ⟨["z"]⟩] [.intLit 1, .intLit 2] = none := by
  constructor
  · have h := unnamed_param_staging.1 [⟨["a"]⟩] [⟨[]⟩] [.intLit 5]
      (by decide) (by decide) (by decide)
    exact h
  · exact unnamed_param_staging.2 [⟨[]⟩, ⟨["z"]⟩] [.intLit 1, .intLit 2]
      (by decide)

/-- The staging block of the rewritten swap function exchanges the values
of `a` and `b` in one pass: each temporary captures the pre-update state. -/
theorem stepSwap_swap (env : Env) :
    ∃ envE, stepSwap env = some envE ∧
      envE "a" = env "b" ∧ envE "b" = env "a" :=
  ⟨_, rfl, rfl, rfl⟩

/-- Iterating the staging block reproduces the argument sequence of the
recursive calls of the swap function. -/
theorem iterSwap_swap : ∀ (k : Nat) (env : Env),
    ∃ envE, iterSwap k env = some envE ∧
      envE "a" = (swapIter k (env "a", env "b")).1 ∧
      envE "b" = (swapIter k (env "a", env "b")).2 := by
  intro k
  induction k with
  | zero => intro env; exact ⟨env, rfl, rfl, rfl⟩
  | succ k ih =>
      intro env
      obtain ⟨e1, hstep, ha, hb⟩ := stepSwap_swap env
      obtain ⟨e2, hiter, ha2, hb2⟩ := ih e1
      refine ⟨e2, ?_, ?_, ?_⟩
      · simp [iterSwap, hstep, hiter]
      · rw [ha2, ha, hb]; rfl
      · rw [hb2, ha, hb]; rfl

/-- C6: on single-name parameter fields (each parameter of the spec's data
model is one named field) the staging statements are one declaring
assignment per parameter whose right-hand side is the corresponding call
argument, followed by exactly one combined assignment updating all
parameters simultaneously from their temporaries; for the swap function
`F(a, b)` the concrete staging is produced, the function is rewritten
around it, and iterating the staged update reproduces exactly the sequence
of swapped `(a, b)` argument pairs of the recursive calls, for arbitrary
initial values. -/
theorem staging_simultaneous_update :
    (∀ (params : List ParamField) (args : List Expr),
      (∀ f ∈ params, ∃ n, f.names = [n]) → params.length ≤ args.length →
      makeAssignStmts params args =
        some (List.zipWith defineStmtOf params args ++
          [Stmt.assign (params.map (fun f => Expr.ident (headNameOf f)))
             Tok.assign
             (params.map (fun f => Expr.ident (tmpNameOf f)))])) ∧
    makeAssignStmts swapFn.params [.ident "b", .ident "a"] =
      some swapStaging ∧
    rewriteFn swapFn = some { swapFn with body :=
      [.forS (.binary (.ident "a") .neq (.intLit 0)) swapStaging,
       .ret [.ident "b"]] } ∧
    (∀ (k : Nat) (a0 b0 : Int),
      ∃ envE, iterSwap k (envAB a0 b0) = some envE ∧
        envE "a" = (swapIter k (a0, b0)).1 ∧
        envE "b" = (swapIter k (a0, b0)).2) := by
  refine ⟨?_, rfl, rfl, ?_⟩
  · intro params args hsingle hlen
    have h := makeAssignStmts_shape params [] args
      (fun f hf => by obtain ⟨n, hn⟩ := hsingle f hf; simp [hn])
      (fun f hf => by cases hf) hlen
    simpa using h
  · intro k a0 b0
    have h := iterSwap_swap k (envAB a0 b0)
    have ha : envAB a0 b0 "a" = a0 := rfl
    have hb : envAB a0 b0 "b" = b0 := rfl
    rw [ha, hb] at h
    exact h

/-- Witness for C6: the general staging shape applied to a concrete
two-parameter function with swapped arguments. -/
theorem staging_simultaneous_update_witness :
    makeAssignStmts [⟨["u"]⟩, ⟨["v"]⟩] [.ident "v", .ident "u"] =
      some [.assign [.ident "tmpu"] .define [.ident "v"],
            .assign [.ident "tmpv"] .define [.ident "u"],
            .assign [.ident "u", .ident "v"] .assign
              [.ident "tmpu", .ident "tmpv"]] :=
  staging_simultaneous_update.1 [⟨["u"]⟩, ⟨["v"]⟩] [.ident "v", .ident "u"]
    (by
      intro f hf
      simp only [List.mem_cons, List.not_mem_nil, or_false] at hf
      rcases hf with rfl | rfl
      · exact ⟨"u", rfl⟩
      · exact ⟨"v", rfl⟩)
    (by decide)

/-- The generic outcome of the driver on a function it rewrites: detector
hit, guard conditional first, staging succeeded.  Shared support for the
reassembly and scoping results. -/
theorem rewriteFn_eq (fn : FuncDecl) (tailRet : Stmt) (callE : Expr)
    (bcond : Expr) (bthen belse rest : List Stmt) (stmts : List Stmt)
    (hfind : findTailRecursionReturn fn = some (tailRet, callE))
    (hbody : fn.body = .ifS bcond bthen belse :: rest)
    (hstage : makeAssignStmts fn.params (callArgs callE) = some stmts) :
    rewriteFn fn = some { fn with body :=
      [.forS (negateCond bcond)
         (stmts ++ rest.filter (fun s => !isTailRecReturn fn.name s)),
       (baseReturnOf bthen).getD .nilRet] } := by
  obtain ⟨name, params, body⟩ := fn
  simp only at hbody hfind hstage ⊢
  subst hbody
  simp [rewriteFn, hfind, hstage]

/-- C7 counterexample: on a function with two top-level tail-recursive
returns after the guard, the statement `return f(1)` is neither the guard
conditional nor the `(Return, Call)` pair the detector reported (it
reported `return f(2)`), yet it is removed from the loop body: the
remainder excludes every top-level self-call return, not just the detected
one. -/
theorem reassembly_remainder_cex :
    rewriteFn twoTopTailFn = some twoTopTailFnRewritten ∧
    findTailRecursionReturn twoTopTailFn =
      some (.ret [.call (.ident "f") [.intLit 2]],
            .call (.ident "f") [.intLit 2]) ∧
    (Stmt.ret [.call (.ident "f") [.intLit 1]]) ∈ twoTopTailFn.body ∧
    Stmt.ret [.call (.ident "f") [.intLit 1]] ≠
      .ifS (.binary (.ident "n") .eql (.intLit 0)) [.ret [.intLit 0]] [] ∧
    Stmt.ret [.call (.ident "f") [.intLit 1]] ≠
      .ret [.call (.ident "f") [.intLit 2]] ∧
    twoTopTailFnRewritten.body =
      [.forS (.binary (.ident "n") .neq (.intLit 0))
         [ .assign [.ident "tmpn"] .define [.intLit 2],
           .assign [.ident "n"] .assign [.ident "tmpn"] ],
       .ret [.intLit 0]] ∧
    Stmt.ret [.call (.ident "f") [.intLit 1]] ∉
      [ Stmt.assign [Expr.ident "tmpn"] Tok.define [Expr.intLit 2],
        Stmt.assign [Expr.ident "n"] Tok.assign [Expr.ident "tmpn"] ] := by
  refine ⟨rfl, rfl, by simp [twoTopTailFn], fun h => Stmt.noConfusion h,
    ?_, rfl, ?_⟩
  · intro h
    simp only [Stmt.ret.injEq, List.cons.injEq, Expr.call.injEq,
      Expr.intLit.injEq] at h
    omega
  · intro h
    simp only [List.mem_cons, List.not_mem_nil, or_false] at h
    rcases h with h | h <;> exact Stmt.noConfusion h

/-- C7 amended: for every function the driver rewrites, the new body is
exactly two statements — a loop whose condition is the negated guard and
whose body is the staging statements followed by the remainder, where the
remainder is every top-level statement of the original body except the
guard conditional (its first statement) and except every top-level return
whose single result is a self-call (nested statements are kept whole even
if the detector's hit lies inside them) — followed unconditionally by the
first statement of the guard's then-branch when that statement is a return
(and a nil return statement otherwise). -/
theorem reassembly_shape (fn : FuncDecl) (tailRet : Stmt) (callE : Expr)
    (bcond : Expr) (bthen belse rest : List Stmt) (stmts : List Stmt)
    (hfind : findTailRecursionReturn fn = some (tailRet, callE))
    (hbody : fn.body = .ifS bcond bthen belse :: rest)
    (hstage : makeAssignStmts fn.params (callArgs callE) = some stmts) :
    rewriteFn fn = some { fn with body :=
      [.forS (negateCond bcond)
         (stmts ++ rest.filter (fun s => !isTailRecReturn fn.name s)),
       (baseReturnOf bthen).getD .nilRet] } :=
  rewriteFn_eq fn tailRet callE bcond bthen belse rest stmts
    hfind hbody hstage

/-- Witness for C7's amended theorem: the reassembled body of `Sum`. -/
theorem reassembly_shape_witness :
    rewriteFn sumFn = some { sumFn with body :=
      [.forS (negateCond (.binary (.ident "n") .eql (.intLit 0)))
         (sumStaging ++ List.filter
            (fun s => !isTailRecReturn sumFn.name s)
            [.ret [.call (.ident "Sum")
              [.binary (.ident "n") .sub (.intLit 1),
               .binary (.ident "acc") .add (.ident "n")]]]),
       (baseReturnOf [.ret [.ident "acc"]]).getD .nilRet] } :=
  reassembly_shape sumFn _ _ _ _ _ _ sumStaging rfl rfl rfl

/-- Negating a condition preserves its identifiers: the operands are kept
verbatim. -/
theorem negateCond_idents (c : Expr) : (negateCond c).idents = c.idents := by
  cases c with
  | binary x op y => cases op <;> rfl
  | ident n => rfl
  | intLit v => rfl
  | call f args => rfl
  | opaq t => rfl

/-- C9 counterexample: on a function that already uses the identifier
`tmpn` (as its second parameter), the temporary derived for `n` is that
same `tmpn` — the rewrite fires and the introduced temporary collides with
an identifier already occurring in the function. -/
theorem temp_collision_cex :
    rewriteFn collideFn = some collideFnRewritten ∧
    collideFnRewritten ≠ collideFn ∧
    "tmpn" ∈ tmpNamesOfParams collideFn.params ∧
    "tmpn" ∈ fnIdents collideFn := by
  refine ⟨rfl, ?_, by decide, by decide⟩
  intro h
  have hb := congrArg FuncDecl.body h
  simp only [collideFnRewritten, collideFn] at hb
  injection hb with h1 h2
  exact Stmt.noConfusion h1

/-- C9 amended: the temporaries are derived deterministically (`tmp` + the
field's first name), so they are fresh only when no such name already
occurs in the function; under that freshness assumption they occur only
inside the new loop body — the loop condition and the trailing base-case
return, the only other parts of the new body, mention none of them. -/
theorem temps_scoped_to_loop (fn : FuncDecl) (tailRet : Stmt) (callE : Expr)
    (bcond : Expr) (bthen belse rest : List Stmt) (stmts : List Stmt)
    (hfind : findTailRecursionReturn fn = some (tailRet, callE))
    (hbody : fn.body = .ifS bcond bthen belse :: rest)
    (hstage : makeAssignStmts fn.params (callArgs callE) = some stmts)
    (hfresh : ∀ t ∈ tmpNamesOfParams fn.params, t ∉ fnIdents fn) :
    ∃ fn', rewriteFn fn = some fn' ∧
      fn'.body = [.forS (negateCond bcond)
          (stmts ++ rest.filter (fun s => !isTailRecReturn fn.name s)),
        (baseReturnOf bthen).getD .nilRet] ∧
      (∀ t ∈ tmpNamesOfParams fn.params,
        t ∉ (negateCond bcond).idents) ∧
      (∀ t ∈ tmpNamesOfParams fn.params,
        t ∉ ((baseReturnOf bthen).getD .nilRet).idents) := by
  have h := rewriteFn_eq fn tailRet callE bcond bthen belse rest stmts
    hfind hbody hstage
  refine ⟨_, h, rfl, ?_, ?_⟩
  · intro t ht hmem
    rw [negateCond_idents] at hmem
    apply hfresh t ht
    simp only [fnIdents, hbody, stmtListIdents, Stmt.idents, List.mem_cons,
      List.mem_append]
    tauto
  · intro t ht hmem
    apply hfresh t ht
    match bthen, hmem with
    | [], hmem => simp [baseReturnOf, Stmt.idents] at hmem
    | .ret rs :: tb', hmem =>
        simp only [baseReturnOf, Option.getD_some, Stmt.idents] at hmem
        simp only [fnIdents, hbody, stmtListIdents, Stmt.idents,
          List.mem_cons, List.mem_append]
        tauto
    | .ifS c tb eb :: tb', hmem => simp [baseReturnOf, Stmt.idents] at hmem
    | .assign l tk r :: tb', hmem => simp [baseReturnOf, Stmt.idents] at hmem
    | .forS c b :: tb', hmem => simp [baseReturnOf, Stmt.idents] at hmem
    | .nilRet :: tb', hmem => simp [baseReturnOf, Stmt.idents] at hmem
    | .opaq tg :: tb', hmem => simp [baseReturnOf, Stmt.idents] at hmem

/-- Witness for C9's amended theorem: on `Sum`, whose identifiers are free
of `tmpn`/`tmpacc`, the temporaries appear neither in the loop condition
nor in the trailing return. -/
theorem temps_scoped_to_loop_witness :
    ∃ fn', rewriteFn sumFn = some fn' ∧
      fn'.body = [.forS (negateCond (.binary (.ident "n") .eql (.intLit 0)))
          (sumStaging ++ List.filter
             (fun s => !isTailRecReturn sumFn.name s)
             [.ret [.call (.ident "Sum")
               [.binary (.ident "n") .sub (.intLit 1),
                .binary (.ident "acc") .add (.ident "n")]]]),
        (baseReturnOf [.ret [.ident "acc"]]).getD .nilRet] ∧
      (∀ t ∈ tmpNamesOfParams sumFn.params,
        t ∉ (negateCond (.binary (.ident "n") .eql (.intLit 0))).idents) ∧
      (∀ t ∈ tmpNamesOfParams sumFn.params,
        t ∉ ((baseReturnOf [.ret [.ident "acc"]]).getD .nilRet).idents) :=
  temps_scoped_to_loop sumFn _ _ _ _ _ _ sumStaging rfl rfl rfl (by decide)

/-- Twice the triangular number. -/
theorem sumTo_mul_two (m : Nat) : sumTo m * 2 = m * (m + 1) := by
  induction m with
  | zero => rfl
  | succ m ih =>
      simp only [sumTo]
      nlinarith [ih]

/-- The triangular number in closed form. -/
theorem sumTo_eq (m : Nat) : sumTo m = m * (m + 1) / 2 := by
  have h := sumTo_mul_two m
  generalize hk : m * (m + 1) = k at h ⊢
  omega

/-- Executing the rewritten `Sum`'s loop from a store with `n = m` and
`acc = a` terminates with `n = 0` and `acc = a + sumTo m`. -/
theorem execStmt_sumLoop (fs : List FuncDecl) :
    ∀ (m : Nat) (a : Int) (env : Env) (fuel : Nat),
    env "n" = (m : Int) → env "acc" = a → m + 8 ≤ fuel →
    ∃ envE, execStmt fs fuel env sumLoop = some (.next envE) ∧
      envE "n" = 0 ∧ envE "acc" = a + (sumTo m : Int) := by
  intro m
  induction m with
  | zero =>
      intro a env fuel hn hacc h
      obtain ⟨f, rfl⟩ : ∃ f, fuel = f + 8 := ⟨fuel - 8, by omega⟩
      refine ⟨env, ?_, by rw [hn]; norm_num, by rw [hacc]; simp [sumTo]⟩
      have hcond : evalCond fs (f + 7) env
          (.binary (.ident "n") .neq (.intLit 0)) = some false := by
        simp [evalCond, evalExpr, hn]
      simp only [sumLoop, execStmt, hcond]
      rfl
  | succ m ih =>
      intro a env fuel hn hacc h
      obtain ⟨f, rfl⟩ : ∃ f, fuel = f + 8 := ⟨fuel - 8, by omega⟩
      have hcond : evalCond fs (f + 7) env
          (.binary (.ident "n") .neq (.intLit 0)) = some true := by
        simp [evalCond, evalExpr, hn]
        omega
      obtain ⟨e3, hst, he3n, he3acc⟩ :
          ∃ e3, execList fs (f + 7) env sumStaging = some (.next e3) ∧
            e3 "n" = env "n" - 1 ∧ e3 "acc" = env "acc" + env "n" :=
        ⟨_, rfl, rfl, rfl⟩
      have hn3 : e3 "n" = (m : Int) := by rw [he3n, hn]; push_cast; ring
      have hacc3 : e3 "acc" = a + ((m : Int) + 1) := by
        rw [he3acc, hn, hacc]; push_cast; ring
      obtain ⟨envE, hexec, hn', hacc'⟩ :=
        ih (a + ((m : Int) + 1)) e3 (f + 7) hn3 hacc3 (by omega)
      refine ⟨envE, ?_, hn', by rw [hacc']; simp [sumTo]; ring⟩
      simp only [sumLoop] at hexec ⊢
      conv_lhs => rw [execStmt]
      simp only [hcond, Option.some_bind, if_true]
      rw [hst]
      exact hexec

/-- Calling the rewritten `Sum` on `(n0, 0)` yields the triangular number. -/
theorem callFn_sumRewritten (n0 : Nat) (fuel : Nat) (h : n0 + 12 ≤ fuel) :
    callFn [sumRewritten] fuel "Sum" [(n0 : Int), 0] =
      some (sumTo n0 : Int) := by
  obtain ⟨f, rfl⟩ : ∃ f, fuel = f + 12 := ⟨fuel - 12, by omega⟩
  obtain ⟨envE, hloop, hn', hacc'⟩ :=
    execStmt_sumLoop [sumRewritten] n0 0
      (updateMany (fun _ => 0) ["n", "acc"] [(n0 : Int), 0]) (f + 10)
      rfl rfl (by omega)
  have hbody : execList [sumRewritten] (f + 11)
      (updateMany (fun _ => 0) ["n", "acc"] [(n0 : Int), 0])
      [sumLoop, .ret [.ident "acc"]] = some (.ret (0 + (sumTo n0 : Int))) := by
    conv_lhs => rw [execList]
    rw [hloop]
    show execList [sumRewritten] (f + 10) envE [.ret [.ident "acc"]] =
      some (.ret (0 + (sumTo n0 : Int)))
    rw [show execList [sumRewritten] (f + 10) envE [.ret [.ident "acc"]] =
        some (.ret (envE "acc")) from rfl, hacc']
  have hred : callFn [sumRewritten] (f + 12) "Sum" [(n0 : Int), 0] =
      (match execList [sumRewritten] (f + 11)
          (updateMany (fun _ => 0) ["n", "acc"] [(n0 : Int), 0])
          [sumLoop, .ret [.ident "acc"]] with
       | some (.ret v) => some v
       | _ => none) := rfl
  rw [hred, hbody]
  norm_num

/-- Calling the recursive `Sum` on `(m, a)` yields `a` plus the triangular
number: the original function's semantics. -/
theorem callFn_sumFn : ∀ (m : Nat) (a : Int) (fuel : Nat),
    5 * m + 12 ≤ fuel →
    callFn [sumFn] fuel "Sum" [(m : Int), a] = some (a + (sumTo m : Int)) := by
  intro m
  induction m with
  | zero =>
      intro a fuel h
      obtain ⟨f, rfl⟩ : ∃ f, fuel = f + 12 := ⟨fuel - 12, by omega⟩
      simp [callFn, lookupFn, sumFn, execList, execStmt, evalCond, evalExpr,
        evalExprList, updateMany, Env.update, sumTo]
  | succ m ih =>
      intro a fuel h
      obtain ⟨f, rfl⟩ : ∃ f, fuel = f + 12 := ⟨fuel - 12, by omega⟩
      have hih := ih (a + ((m : Int) + 1)) (f + 7) (by omega)
      have hcond : evalCond [sumFn] (f + 9)
          (updateMany (fun _ => 0) ["n", "acc"] [((m + 1 : Nat) : Int), a])
          (.binary (.ident "n") .eql (.intLit 0)) = some false := by
        simp [evalCond, evalExpr, updateMany, Env.update]
        omega
      have h1 : execStmt [sumFn] (f + 10)
          (updateMany (fun _ => 0) ["n", "acc"] [((m + 1 : Nat) : Int), a])
          (.ifS (.binary (.ident "n") .eql (.intLit 0))
            [.ret [.ident "acc"]] []) =
          some (.next (updateMany (fun _ => 0) ["n", "acc"]
            [((m + 1 : Nat) : Int), a])) := by
        show (do
            let b ← evalCond [sumFn] (f + 9)
              (updateMany (fun _ => 0) ["n", "acc"] [((m + 1 : Nat) : Int), a])
              (.binary (.ident "n") .eql (.intLit 0))
            if b then
              execList [sumFn] (f + 9)
                (updateMany (fun _ => 0) ["n", "acc"]
                  [((m + 1 : Nat) : Int), a]) [.ret [.ident "acc"]]
            else
              execList [sumFn] (f + 9)
                (updateMany (fun _ => 0) ["n", "acc"]
                  [((m + 1 : Nat) : Int), a]) []) = _
        rw [hcond]
        rfl
      have hcall : evalExpr [sumFn] (f + 8)
          (updateMany (fun _ => 0) ["n", "acc"] [((m + 1 : Nat) : Int), a])
          (.call (.ident "Sum")
            [.binary (.ident "n") .sub (.intLit 1),
             .binary (.ident "acc") .add (.ident "n")]) =
          callFn [sumFn] (f + 7) "Sum"
            [((m + 1 : Nat) : Int) - 1, a + ((m + 1 : Nat) : Int)] := rfl
      have hv1 : ((m + 1 : Nat) : Int) - 1 = (m : Int) := by push_cast; ring
      have hv2 : a + ((m + 1 : Nat) : Int) = a + ((m : Int) + 1) := by
        push_cast; ring
      have hcallv : evalExpr [sumFn] (f + 8)
          (updateMany (fun _ => 0) ["n", "acc"] [((m + 1 : Nat) : Int), a])
          (.call (.ident "Sum")
            [.binary (.ident "n") .sub (.intLit 1),
             .binary (.ident "acc") .add (.ident "n")]) =
          some (a + ((m : Int) + 1) + (sumTo m : Int)) := by
        rw [hcall, hv1, hv2, hih]
      have h2 : execStmt [sumFn] (f + 9)
          (updateMany (fun _ => 0) ["n", "acc"] [((m + 1 : Nat) : Int), a])
          (.ret [.call (.ident "Sum")
            [.binary (.ident "n") .sub (.intLit 1),
             .binary (.ident "acc") .add (.ident "n")]]) =
          some (.ret (a + ((m : Int) + 1) + (sumTo m : Int))) := by
        show (do
            let v ← evalExpr [sumFn] (f + 8)
              (updateMany (fun _ => 0) ["n", "acc"] [((m + 1 : Nat) : Int), a])
              (.call (.ident "Sum")
                [.binary (.ident "n") .sub (.intLit 1),
                 .binary (.ident "acc") .add (.ident "n")])
            some (Outcome.ret v)) = _
        rw [hcallv]
        rfl
      have h4 : execList [sumFn] (f + 11)
          (updateMany (fun _ => 0) ["n", "acc"] [((m + 1 : Nat) : Int), a])
          [.ifS (.binary (.ident "n") .eql (.intLit 0))
             [.ret [.ident "acc"]] [],
           .ret [.call (.ident "Sum")
             [.binary (.ident "n") .sub (.intLit 1),
              .binary (.ident "acc") .add (.ident "n")]]] =
          some (.ret (a + ((m : Int) + 1) + (sumTo m : Int))) := by
        conv_lhs => rw [execList]
        rw [h1]
        show execList [sumFn] (f + 10)
          (updateMany (fun _ => 0) ["n", "acc"] [((m + 1 : Nat) : Int), a])
          [.ret [.call (.ident "Sum")
            [.binary (.ident "n") .sub (.intLit 1),
             .binary (.ident "acc") .add (.ident "n")]]] = _
        conv_lhs => rw [execList]
        rw [h2]
      have hred : callFn [sumFn] (f + 12) "Sum" [((m + 1 : Nat) : Int), a] =
          (match execList [sumFn] (f + 11)
              (updateMany (fun _ => 0) ["n", "acc"] [((m + 1 : Nat) : Int), a])
              [.ifS (.binary (.ident "n") .eql (.intLit 0))
                 [.ret [.ident "acc"]] [],
               .ret [.call (.ident "Sum")
                 [.binary (.ident "n") .sub (.intLit 1),
                  .binary (.ident "acc") .add (.ident "n")]]] with
           | some (.ret v) => some v
           | _ => none) := rfl
      rw [hred, h4]
      simp [sumTo]
      ring

/-- C1: the accumulator function `Sum(n, acc)` is rewritten into the
expected loop form, and for every non-negative integer `n0` both the
original recursive function and the rewritten one, applied to `(n0, 0)`,
return `n0*(n0+1)/2` (fuel-indexed interpreter, any sufficient fuel). -/
theorem sum_rewrite_equivalence (n0 : Nat) (fuel : Nat)
    (h : 5 * n0 + 12 ≤ fuel) :
    rewriteFn sumFn = some sumRewritten ∧
    callFn [sumFn] fuel "Sum" [(n0 : Int), 0] =
      some ((n0 * (n0 + 1) / 2 : Nat) : Int) ∧
    callFn [sumRewritten] fuel "Sum" [(n0 : Int), 0] =
      some ((n0 * (n0 + 1) / 2 : Nat) : Int) := by
  refine ⟨rfl, ?_, ?_⟩
  · have hr := callFn_sumFn n0 0 fuel h
    rw [sumTo_eq] at hr
    simpa using hr
  · have hr := callFn_sumRewritten n0 fuel (by omega)
    rw [sumTo_eq] at hr
    exact hr

/-- Witness for C1 at `n0 = 3`, fuel 27: both sides return 6. -/
theorem sum_rewrite_equivalence_witness :
    rewriteFn sumFn = some sumRewritten ∧
    callFn [sumFn] 27 "Sum" [((3 : Nat) : Int), 0] =
      some ((3 * (3 + 1) / 2 : Nat) : Int) ∧
    callFn [sumRewritten] 27 "Sum" [((3 : Nat) : Int), 0] =
      some ((3 * (3 + 1) / 2 : Nat) : Int) :=
  sum_rewrite_equivalence 3 27 (by decide)
